import Mathlib

/-!
Verification of the hive-agent execution core.

The definitions below are a shallow embedding of the TypeScript sources:
* `src/unnamed/part_001` (token estimation and context management),
* `src/unnamed/part_003` (todo list management and the todo tool),
* `src/src/executor.ts` (tool dispatch and the main execution loop).

Machine time (`Date.now()`) is modelled by explicit natural-number
timestamps where a claim needs it and by the constant `0` elsewhere;
random ids (`generateId`) are modelled by a fresh-id counter; a thrown
JavaScript exception is modelled as `Except.error` carrying the
exception's message.
-/

namespace HiveAgent

/-- Model of the JSON payload carried by a `tool_use` content block.
`question` and `options` are the two fields the executor reads when the
block names the reserved ask-user tool; `serialized` stands for the
string `JSON.stringify(input)`, which token estimation measures. -/
structure ToolInput where
  question : String := ""
  options : Option (List String) := none
  serialized : String := ""
deriving DecidableEq

/-- Content blocks of a message (`types.ts` union `ContentBlock`). -/
inductive ContentBlock where
  | text (text : String)
  | thinking (thinking : String)
  | tool_use (id : String) (name : String) (input : ToolInput)
  | tool_result (tool_use_id : String) (content : String) (is_error : Bool)
deriving DecidableEq

/-- Message roles. -/
inductive Role where
  | user
  | assistant
deriving DecidableEq

/-- A message's content is either a plain string or a block sequence. -/
inductive MessageContent where
  | str (s : String)
  | blocks (blocks : List ContentBlock)
deriving DecidableEq

/-- A conversation message. -/
structure Message where
  role : Role
  content : MessageContent
deriving DecidableEq

/-- Source `estimateTokens`: `Math.ceil(text.length / 4)`. -/
def estimateTokens (text : String) : Nat :=
  (text.length + 3) / 4

/-- Source `estimateContentBlockTokens`: dispatch on the block tag. -/
def estimateContentBlockTokens : ContentBlock → Nat
  | .text t => estimateTokens t
  | .thinking t => estimateTokens t
  | .tool_use _ name input => estimateTokens name + estimateTokens input.serialized
  | .tool_result _ content _ => estimateTokens content

/-- Source `estimateMessageTokens`: direct estimate for plain strings, sum of
block estimates otherwise (a `reduce` with initial value `0`). -/
def estimateMessageTokens (message : Message) : Nat :=
  match message.content with
  | .str s => estimateTokens s
  | .blocks bs => bs.foldl (fun sum b => sum + estimateContentBlockTokens b) 0

/-- Source `estimateTotalTokens`: sum over all messages. -/
def estimateTotalTokens (messages : List Message) : Nat :=
  messages.foldl (fun sum m => sum + estimateMessageTokens m) 0

/-- The backward scan of `truncateOldMessages`: walk the middle messages
from the newest to the oldest (the input list is the middle part
reversed), keeping each message while the running total stays within
`maxTokens` and stopping at the first overflow (the `break`).  The
collected list is in scan order, so the caller reverses it (the source
builds it with `unshift`). -/
def collectRecentRev (maxTokens : Nat) : List Message → Nat → List Message
  | [], _ => []
  | m :: rest, total =>
    if total + estimateMessageTokens m ≤ maxTokens then
      m :: collectRecentRev maxTokens rest (total + estimateMessageTokens m)
    else []

/-- Source `truncateOldMessages`: keep the first `preserveFirst` messages, then
add messages from the end while the running token total fits. -/
def truncateOldMessages (messages : List Message) (maxTokens : Nat)
    (preserveFirst : Nat := 1) : List Message :=
  if messages.length ≤ preserveFirst then messages
  else
    let kept := messages.take preserveFirst
    kept ++ (collectRecentRev maxTokens ((messages.drop preserveFirst).reverse)
      (estimateTotalTokens kept)).reverse

/-- Context strategies (`types.ts` union `ContextStrategy`). -/
inductive ContextStrategy where
  | truncate_old
  | summarize
  | error
deriving DecidableEq

/-- State of a `ContextManager` instance. -/
structure ContextManager where
  maxTokens : Nat := 100000
  strategy : ContextStrategy := .truncate_old
  currentTokens : Nat := 0
deriving DecidableEq

/-- Source `isWithinLimits`: `currentTokens <= maxTokens`. -/
def ContextManager.isWithinLimits (cm : ContextManager) : Bool :=
  cm.currentTokens ≤ cm.maxTokens

/-- Source `getRemainingTokens`: `Math.max(0, maxTokens - currentTokens)`,
which is truncated subtraction on naturals. -/
def ContextManager.getRemainingTokens (cm : ContextManager) : Nat :=
  cm.maxTokens - cm.currentTokens

/-- Source `manageContext`: recompute the token count, return the messages
unchanged when within limits, otherwise apply the strategy.  The
`error` strategy throws, modelled as `Except.error`; the updated
manager (with its refreshed `currentTokens`) is returned alongside. -/
def ContextManager.manageContext (cm : ContextManager) (messages : List Message) :
    ContextManager × Except String (List Message) :=
  let cm' : ContextManager := { cm with currentTokens := estimateTotalTokens messages }
  if cm'.isWithinLimits then (cm', .ok messages)
  else
    match cm'.strategy with
    | .truncate_old => (cm', .ok (truncateOldMessages messages cm'.maxTokens))
    | .summarize => (cm', .ok (truncateOldMessages messages cm'.maxTokens))
    | .error => (cm', .error ("Context limit exceeded: " ++ toString cm'.currentTokens
        ++ " > " ++ toString cm'.maxTokens ++ " tokens"))

theorem foldl_add_estimate (l : List Message) (n : Nat) :
    l.foldl (fun sum m => sum + estimateMessageTokens m) n = n + estimateTotalTokens l := by
  induction l generalizing n with
  | nil => simp [estimateTotalTokens]
  | cons m rest ih =>
    simp only [List.foldl, estimateTotalTokens] at *
    rw [ih (n + estimateMessageTokens m), ih (0 + estimateMessageTokens m)]
    omega

theorem estimateTotalTokens_cons (m : Message) (l : List Message) :
    estimateTotalTokens (m :: l) = estimateMessageTokens m + estimateTotalTokens l := by
  simpa [estimateTotalTokens] using foldl_add_estimate l (0 + estimateMessageTokens m)

theorem estimateTotalTokens_append (a b : List Message) :
    estimateTotalTokens (a ++ b) = estimateTotalTokens a + estimateTotalTokens b := by
  induction a with
  | nil => simp [estimateTotalTokens]
  | cons m rest ih => simp [estimateTotalTokens_cons, ih]; omega

theorem estimateTotalTokens_reverse (l : List Message) :
    estimateTotalTokens l.reverse = estimateTotalTokens l := by
  induction l with
  | nil => rfl
  | cons m rest ih =>
    simp [List.reverse_cons, estimateTotalTokens_append, estimateTotalTokens_cons, ih]
    simp [estimateTotalTokens]
    omega

theorem collectRecentRev_le (B : Nat) (rev : List Message) (total : Nat) (h : total ≤ B) :
    total + estimateTotalTokens (collectRecentRev B rev total) ≤ B := by
  induction rev generalizing total with
  | nil => simpa [collectRecentRev, estimateTotalTokens] using h
  | cons m rest ih =>
    by_cases hc : total + estimateMessageTokens m ≤ B
    · have := ih (total + estimateMessageTokens m) hc
      simp only [collectRecentRev, if_pos hc, estimateTotalTokens_cons]
      omega
    · simpa [collectRecentRev, hc, estimateTotalTokens] using h

theorem collectRecentRev_of_gt (B : Nat) (rev : List Message) (total : Nat)
    (h : B < total) : collectRecentRev B rev total = [] := by
  cases rev with
  | nil => rfl
  | cons m rest =>
    have hc : ¬ (total + estimateMessageTokens m ≤ B) := by omega
    simp [collectRecentRev, hc]

theorem truncateOldMessages_head (messages : List Message) (B : Nat) :
    (truncateOldMessages messages B).head? = messages.head? := by
  by_cases h : messages.length ≤ 1
  · simp [truncateOldMessages, h]
  · cases messages with
    | nil => simp at h
    | cons m rest =>
      cases rest with
      | nil => simp at h
      | cons a b => simp [truncateOldMessages, h, List.take]

theorem truncateOldMessages_total (messages : List Message) (B : Nat) (m0 : Message)
    (h0 : messages.head? = some m0) (hB : estimateMessageTokens m0 ≤ B) :
    estimateTotalTokens (truncateOldMessages messages B) ≤ B := by
  cases messages with
  | nil => simp at h0
  | cons m rest =>
    have hm : m = m0 := by simpa using h0
    subst hm
    by_cases h : (m :: rest).length ≤ 1
    · have : rest = [] := by
        cases rest with
        | nil => rfl
        | cons a b => simp at h
      subst this
      simpa [truncateOldMessages, estimateTotalTokens_cons, estimateTotalTokens] using hB
    · have hkept : estimateTotalTokens ((m :: rest).take 1) = estimateMessageTokens m := by
        simp [List.take, estimateTotalTokens_cons, estimateTotalTokens]
      simp only [truncateOldMessages, if_neg h, hkept, estimateTotalTokens_append]
      have := collectRecentRev_le B (((m :: rest).drop 1).reverse) (estimateMessageTokens m) hB
      rw [estimateTotalTokens_reverse]
      have hone : estimateTotalTokens ((m :: rest).take 1) = estimateMessageTokens m := hkept
      simp only [List.take, estimateTotalTokens_cons, estimateTotalTokens, List.foldl] at *
      omega

/-- C1: for every token budget `B` and message sequence `M`, whenever
`ContextManager.manageContext` returns a message sequence (it always
does for the non-throwing strategies), that sequence starts with the
same pinned first message as `M` (so the pinned prefix is present even
when it alone exceeds `B`), and whenever the pinned first message alone
estimates within `B`, the total estimated tokens of the output are at
most `B`. -/
theorem C1_manageContext_budget (B : Nat) (s : ContextStrategy) (c : Nat)
    (M out : List Message)
    (h : (ContextManager.manageContext ⟨B, s, c⟩ M).2 = .ok out) :
    out.head? = M.head? ∧
      (∀ m0, M.head? = some m0 → estimateMessageTokens m0 ≤ B →
        estimateTotalTokens out ≤ B) := by
  by_cases hW : estimateTotalTokens M ≤ B
  · have hout : out = M := by
      simp [ContextManager.manageContext, ContextManager.isWithinLimits, hW] at h
      exact h.symm
    subst hout
    exact ⟨rfl, fun m0 _ _ => hW⟩
  · cases s with
    | truncate_old =>
      have hout : out = truncateOldMessages M B := by
        simp [ContextManager.manageContext, ContextManager.isWithinLimits, hW] at h
        exact h.symm
      subst hout
      exact ⟨truncateOldMessages_head M B,
        fun m0 h0 hle => truncateOldMessages_total M B m0 h0 hle⟩
    | summarize =>
      have hout : out = truncateOldMessages M B := by
        simp [ContextManager.manageContext, ContextManager.isWithinLimits, hW] at h
        exact h.symm
      subst hout
      exact ⟨truncateOldMessages_head M B,
        fun m0 h0 hle => truncateOldMessages_total M B m0 h0 hle⟩
    | error =>
      simp [ContextManager.manageContext, ContextManager.isWithinLimits, hW] at h

/-- Concrete data used by the witnesses of the context-management
claims: a two-message history that exceeds a budget of one token. -/
def exMsgA : Message := ⟨.user, .str "hi"⟩

def exMsgB : Message := ⟨.assistant, .str "hello there folks"⟩

def exHistory : List Message := [exMsgA, exMsgB]

theorem C1_manageContext_budget_witness :
    ((ContextManager.manageContext ⟨1, .truncate_old, 0⟩ exHistory).2 = .ok [exMsgA]) ∧
      (([exMsgA] : List Message).head? = exHistory.head? ∧
        (∀ m0, exHistory.head? = some m0 → estimateMessageTokens m0 ≤ 1 →
          estimateTotalTokens [exMsgA] ≤ 1)) :=
  ⟨by rfl, C1_manageContext_budget 1 .truncate_old 0 exHistory [exMsgA] (by rfl)⟩

/-- C2: context management is idempotent — whenever `manageContext`
returns a message sequence `out`, running `manageContext` again (any
strategy and budget being the same, the recorded current-token state
being arbitrary) on `out` returns `out` unchanged. -/
theorem C2_manageContext_idempotent (B : Nat) (s : ContextStrategy) (c c' : Nat)
    (M out : List Message)
    (h : (ContextManager.manageContext ⟨B, s, c⟩ M).2 = .ok out) :
    (ContextManager.manageContext ⟨B, s, c'⟩ out).2 = .ok out := by
  by_cases hW : estimateTotalTokens M ≤ B
  · have hout : out = M := by
      simp [ContextManager.manageContext, ContextManager.isWithinLimits, hW] at h
      exact h.symm
    subst hout
    simp [ContextManager.manageContext, ContextManager.isWithinLimits, hW]
  · have hs : s ≠ .error := by
      intro he
      subst he
      simp [ContextManager.manageContext, ContextManager.isWithinLimits, hW] at h
    have hout : out = truncateOldMessages M B := by
      cases s with
      | truncate_old =>
        simp [ContextManager.manageContext, ContextManager.isWithinLimits, hW] at h
        exact h.symm
      | summarize =>
        simp [ContextManager.manageContext, ContextManager.isWithinLimits, hW] at h
        exact h.symm
      | error => exact absurd rfl hs
    subst hout
    cases M with
    | nil =>
      exfalso
      exact hW (by simp [estimateTotalTokens])
    | cons m rest =>
      by_cases hlen : (m :: rest).length ≤ 1
      · have hrest : rest = [] := by
          cases rest with
          | nil => rfl
          | cons a b => simp at hlen
        subst hrest
        simp only [truncateOldMessages, if_pos hlen]
        cases s with
        | truncate_old =>
          simp [ContextManager.manageContext, ContextManager.isWithinLimits, hW,
            truncateOldMessages, hlen]
        | summarize =>
          simp [ContextManager.manageContext, ContextManager.isWithinLimits, hW,
            truncateOldMessages, hlen]
        | error => exact absurd rfl hs
      · by_cases h0 : estimateMessageTokens m ≤ B
        · have htot : estimateTotalTokens (truncateOldMessages (m :: rest) B) ≤ B :=
            truncateOldMessages_total (m :: rest) B m rfl h0
          simp [ContextManager.manageContext, ContextManager.isWithinLimits, htot]
        · have hkept : estimateTotalTokens ((m :: rest).take 1) = estimateMessageTokens m := by
            simp [List.take, estimateTotalTokens_cons, estimateTotalTokens]
          have hcoll : collectRecentRev B (((m :: rest).drop 1).reverse)
              (estimateTotalTokens ((m :: rest).take 1)) = [] := by
            rw [hkept]
            exact collectRecentRev_of_gt B _ _ (by omega)
          have hout1 : truncateOldMessages (m :: rest) B = [m] := by
            simp only [truncateOldMessages, if_neg hlen, hcoll]
            simp [List.take]
          rw [hout1]
          have h1 : ¬ (estimateTotalTokens [m] ≤ B) := by
            simp [estimateTotalTokens_cons, estimateTotalTokens]
            omega
          cases s with
          | truncate_old =>
            simp [ContextManager.manageContext, ContextManager.isWithinLimits, h1,
              truncateOldMessages]
          | summarize =>
            simp [ContextManager.manageContext, ContextManager.isWithinLimits, h1,
              truncateOldMessages]
          | error => exact absurd rfl hs

theorem C2_manageContext_idempotent_witness :
    ((ContextManager.manageContext ⟨1, .summarize, 0⟩ exHistory).2 = .ok [exMsgA]) ∧
      (ContextManager.manageContext ⟨1, .summarize, 7⟩ [exMsgA]).2 = .ok [exMsgA] :=
  ⟨by rfl, C2_manageContext_idempotent 1 .summarize 0 7 exHistory [exMsgA] (by rfl)⟩

/-- Todo statuses. -/
inductive TodoStatus where
  | pending
  | in_progress
  | completed
deriving DecidableEq

/-- A todo item.  The random ids of `generateId` are modelled by
naturals drawn from a fresh-id counter; `Date.now()` timestamps are
modelled by the constant `0`. -/
structure TodoItem where
  id : Nat
  content : String
  activeForm : Option String := none
  status : TodoStatus := .pending
  createdAt : Nat := 0
  completedAt : Option Nat := none
deriving DecidableEq

/-- State of a `TodoManager`: the insertion-ordered entries of the
`Map`, the current task id, and the fresh-id counter. -/
structure TodoManager where
  items : List TodoItem := []
  currentTaskId : Option Nat := none
  nextId : Nat := 0
deriving DecidableEq

def freshTodoManager : TodoManager := {}

/-- Source `getAll`: `Array.from(items.values())`, in insertion order. -/
def TodoManager.getAll (m : TodoManager) : List TodoItem := m.items

/-- Source `getCurrentTask`. -/
def TodoManager.getCurrentTask (m : TodoManager) : Option TodoItem :=
  match m.currentTaskId with
  | none => none
  | some id => m.items.find? (fun i => i.id == id)

/-- Input shape accepted by `setAll`. -/
structure SetTodoInput where
  content : String
  activeForm : Option String := none
  status : Option TodoStatus := none
deriving DecidableEq

/-- The items freshly built by `setAll`, with sequential fresh ids. -/
def buildTodoItems (baseId : Nat) : List SetTodoInput → List TodoItem
  | [] => []
  | t :: rest =>
    { id := baseId, content := t.content, activeForm := t.activeForm,
      status := t.status.getD TodoStatus.pending } :: buildTodoItems (baseId + 1) rest

/-- The find-first-pending-and-start-it mutation shared by `setAll`,
`completeTask` and `completeCurrentAndNext`: locate the first item with
status `pending`, mark it `in_progress`, and return the updated list
together with the item just started (if any). -/
def promoteFirstPending : List TodoItem → List TodoItem × Option TodoItem
  | [] => ([], none)
  | i :: rest =>
    if i.status = TodoStatus.pending then
      ({ i with status := TodoStatus.in_progress } :: rest,
        some { i with status := TodoStatus.in_progress })
    else
      (i :: (promoteFirstPending rest).1, (promoteFirstPending rest).2)

/-- Source `setAll`: replace the whole list and start the first pending item.
Returns the new manager state together with the returned item array. -/
def TodoManager.setAll (m : TodoManager) (todos : List SetTodoInput) :
    TodoManager × List TodoItem :=
  let promoted := promoteFirstPending (buildTodoItems m.nextId todos)
  ({ items := promoted.1, currentTaskId := promoted.2.map (fun i => i.id),
     nextId := m.nextId + todos.length }, promoted.1)

/-- Source `completeTask`: mark the item with the given id completed, clear the
current-task pointer when it pointed at that item, then start the first
still-pending item.  Returns `none` when no item has the id. -/
def TodoManager.completeTask (m : TodoManager) (id : Nat) :
    TodoManager × Option (TodoItem × Option TodoItem) :=
  match m.items.find? (fun i => i.id == id) with
  | none => (m, none)
  | some item =>
    let completedItem : TodoItem :=
      { item with status := TodoStatus.completed, completedAt := some 0 }
    let items1 := m.items.map (fun i =>
      if i.id == id then { i with status := TodoStatus.completed, completedAt := some 0 }
      else i)
    let cur1 : Option Nat := if m.currentTaskId = some id then none else m.currentTaskId
    let promoted := promoteFirstPending items1
    match promoted.2 with
    | some np =>
      ({ items := promoted.1, currentTaskId := some np.id, nextId := m.nextId },
        some (completedItem, some np))
    | none =>
      ({ items := items1, currentTaskId := cur1, nextId := m.nextId },
        some (completedItem, none))

/-- Return shape of `completeCurrentAndNext` (both fields optional). -/
structure CompletePair where
  completed : Option TodoItem := none
  next : Option TodoItem := none
deriving DecidableEq

/-- Source `completeCurrentAndNext`: complete the current task and start the
next pending one; when there is no current task, just start the first
pending one. -/
def TodoManager.completeCurrentAndNext (m : TodoManager) : TodoManager × CompletePair :=
  match m.currentTaskId with
  | none =>
    let promoted := promoteFirstPending m.items
    match promoted.2 with
    | some p =>
      ({ m with items := promoted.1, currentTaskId := some p.id }, { next := some p })
    | none => (m, {})
  | some id =>
    let r := m.completeTask id
    match r.2 with
    | some (c, n) => (r.1, { completed := some c, next := n })
    | none => (r.1, {})

/-- Source `isAllCompleted`: `every` item is completed (true on an empty list). -/
def TodoManager.isAllCompleted (m : TodoManager) : Bool :=
  m.items.all (fun i => i.status == TodoStatus.completed)

/-- Progress counts returned by `getProgress`. -/
structure Progress where
  total : Nat
  completed : Nat
  pending : Nat
  inProgress : Nat
deriving DecidableEq

/-- Source `getProgress`. -/
def TodoManager.getProgress (m : TodoManager) : Progress :=
  { total := m.items.length,
    completed := (m.items.filter (fun i => i.status == TodoStatus.completed)).length,
    pending := (m.items.filter (fun i => i.status == TodoStatus.pending)).length,
    inProgress := (m.items.filter (fun i => i.status == TodoStatus.in_progress)).length }

/-- Status emoji used by `formatTodoList`. -/
def statusEmoji : TodoStatus → String
  | .pending => "⬜"
  | .in_progress => "🔄"
  | .completed => "✅"

/-- Label shown for one item in `formatTodoList`: the active form only
when the item is in progress and the active form is truthy. -/
def todoLabel (todo : TodoItem) : String :=
  match todo.activeForm with
  | some s => if todo.status = TodoStatus.in_progress ∧ s ≠ "" then s else todo.content
  | none => todo.content

/-- Source `formatTodoList`. -/
def formatTodoList (todos : List TodoItem) : String :=
  if todos.length = 0 then "No tasks in the todo list."
  else
    String.intercalate "\n" (todos.enum.map (fun p =>
      toString (p.1 + 1) ++ ". " ++ statusEmoji p.2.status ++ " " ++ todoLabel p.2))

/-- Parsed item for the todo tool's `set` action: the tool's JSON
parsing layer only ever extracts `content` and `activeForm`. -/
structure TodoInputItem where
  content : String
  activeForm : Option String := none
deriving DecidableEq

/-- JS `item.activeForm || item.content`: the active form wins when it
is truthy (present and non-empty). -/
def jsOrLabel (i : TodoItem) : String :=
  match i.activeForm with
  | some s => if s = "" then i.content else s
  | none => i.content

/-- The `data` payload of a successful todo-tool result. -/
structure TodoToolData where
  message : String
  todos : List TodoItem
  current : Option String := none
  progress : Option Progress := none
deriving DecidableEq

/-- The `ToolResult` shape produced by the todo tool. -/
structure TodoToolOutcome where
  success : Bool
  data : Option TodoToolData := none
  error : Option String := none
deriving DecidableEq

/-- The `execute` closure of `createTodoTool`, after the JSON parsing
layer: `items` is the parsed item array (`none` when the `items`
parameter was absent).  Returns the updated manager state alongside the
tool result. -/
def todoToolExecute (m : TodoManager) (action : String)
    (items : Option (List TodoInputItem)) : TodoManager × TodoToolOutcome :=
  if action = "set" then
    match items with
    | none =>
      (m, { success := false, error := some "Items array is required for \"set\" action" })
    | some its =>
      if its.length = 0 then
        (m, { success := false, error := some "Items array is required for \"set\" action" })
      else
        let r := m.setAll (its.map (fun i =>
          { content := i.content, activeForm := i.activeForm }))
        let currentLabel := r.1.getCurrentTask.map jsOrLabel
        (r.1, { success := true, data := some {
          message := "Created " ++ toString r.2.length ++ " tasks. Starting: \""
            ++ (match currentLabel with | some l => l | none => "undefined") ++ "\"",
          todos := r.1.getAll,
          current := currentLabel } })
  else if action = "complete" then
    let r := m.completeCurrentAndNext
    (r.1,
      if r.2.completed = none ∧ r.2.next = none then
        { success := true, data := some {
          message := "No tasks to complete.", todos := r.1.getAll } }
      else
        let progress := r.1.getProgress
        let msg1 := match r.2.completed with
          | some c => "Completed: \"" ++ c.content ++ "\". "
          | none => ""
        let msg2 := match r.2.next with
          | some n => "Next: \"" ++ jsOrLabel n ++ "\". "
          | none => if r.1.isAllCompleted then "All tasks completed!" else ""
        { success := true, data := some {
          message := msg1 ++ msg2 ++ "Progress: " ++ toString progress.completed
            ++ "/" ++ toString progress.total,
          todos := r.1.getAll,
          current := r.2.next.map jsOrLabel,
          progress := some progress } })
  else if action = "list" then
    (m, { success := true, data := some {
      message := formatTodoList m.getAll,
      todos := m.getAll,
      current := m.getCurrentTask.map jsOrLabel,
      progress := some m.getProgress } })
  else (m, { success := false, error := some ("Unknown action: " ++ action) })

/-- One invocation of the todo tool with action `set` or `complete`. -/
inductive TodoOp where
  | set (items : List TodoInputItem)
  | complete

/-- The manager state after one todo-tool invocation. -/
def applyTodoOp (m : TodoManager) : TodoOp → TodoManager
  | .set items => (todoToolExecute m "set" (some items)).1
  | .complete => (todoToolExecute m "complete" none).1

/-- The manager state after a sequence of todo-tool invocations applied
to a fresh manager. -/
def runTodoOps (ops : List TodoOp) : TodoManager :=
  ops.foldl applyTodoOp freshTodoManager

/-- Number of items currently `in_progress`. -/
def countInProgress (m : TodoManager) : Nat :=
  (m.items.filter (fun i => i.status == TodoStatus.in_progress)).length

/-- Inductive invariant: at most one in-progress item, and every
in-progress item is the current task. -/
def TodoInv (m : TodoManager) : Prop :=
  countInProgress m ≤ 1 ∧
    ∀ i ∈ m.items, i.status = TodoStatus.in_progress → m.currentTaskId = some i.id

theorem promoteFirstPending_of_none (items : List TodoItem)
    (h : ∀ i ∈ items, i.status ≠ TodoStatus.in_progress) :
    ((promoteFirstPending items).1.filter
        (fun i => i.status == TodoStatus.in_progress)).length ≤ 1 ∧
      (∀ i ∈ (promoteFirstPending items).1, i.status = TodoStatus.in_progress →
        ∃ p, (promoteFirstPending items).2 = some p ∧ i.id = p.id) := by
  induction items with
  | nil => simp [promoteFirstPending]
  | cons a rest ih =>
    have hane : a.status ≠ TodoStatus.in_progress := h a (List.mem_cons_self _ _)
    have hrest : ∀ i ∈ rest, i.status ≠ TodoStatus.in_progress :=
      fun i hi => h i (List.mem_cons_of_mem _ hi)
    by_cases ha : a.status = TodoStatus.pending
    · simp only [promoteFirstPending, if_pos ha]
      constructor
      · have hnil : rest.filter (fun i => i.status == TodoStatus.in_progress) = [] := by
          rw [List.filter_eq_nil_iff]
          intro i hi
          simpa using hrest i hi
        simp [List.filter_cons, hnil]
      · intro i hi hstat
        rcases List.mem_cons.mp hi with rfl | hi2
        · exact ⟨_, rfl, rfl⟩
        · exact absurd hstat (hrest i hi2)
    · obtain ⟨ih1, ih2⟩ := ih hrest
      simp only [promoteFirstPending, if_neg ha]
      constructor
      · have hfa : (a.status == TodoStatus.in_progress) = false := by
          simpa using hane
        simpa [List.filter_cons, hfa] using ih1
      · intro i hi hstat
        rcases List.mem_cons.mp hi with rfl | hi2
        · exact absurd hstat hane
        · exact ih2 i hi2 hstat

theorem buildTodoItems_status (baseId : Nat) (todos : List SetTodoInput)
    (h : ∀ t ∈ todos, t.status = none) :
    ∀ i ∈ buildTodoItems baseId todos, i.status = TodoStatus.pending := by
  induction todos generalizing baseId with
  | nil => simp [buildTodoItems]
  | cons t rest ih =>
    intro i hi
    simp only [buildTodoItems] at hi
    rcases List.mem_cons.mp hi with rfl | hi2
    · simp [h t (List.mem_cons_self _ _)]
    · exact ih (baseId + 1) (fun u hu => h u (List.mem_cons_of_mem _ hu)) i hi2

theorem todoInv_setAll (m : TodoManager) (todos : List SetTodoInput)
    (h : ∀ t ∈ todos, t.status = none) : TodoInv (m.setAll todos).1 := by
  have hb : ∀ i ∈ buildTodoItems m.nextId todos, i.status ≠ TodoStatus.in_progress := by
    intro i hi
    rw [buildTodoItems_status m.nextId todos h i hi]
    simp
  obtain ⟨h1, h2⟩ := promoteFirstPending_of_none _ hb
  constructor
  · simpa [TodoManager.setAll, countInProgress] using h1
  · intro i hi hstat
    obtain ⟨p, hp, hid⟩ := h2 i (by simpa [TodoManager.setAll] using hi) hstat
    simp [TodoManager.setAll, hp, hid]

theorem todoInv_completeTask (m : TodoManager) (id : Nat) (hInv : TodoInv m)
    (hcur : m.currentTaskId = some id) : TodoInv (m.completeTask id).1 := by
  obtain ⟨h1, h2⟩ := hInv
  cases hfind : m.items.find? (fun i => i.id == id) with
  | none =>
    simp only [TodoManager.completeTask, hfind]
    exact ⟨h1, h2⟩
  | some item =>
    have hno1 : ∀ i ∈ m.items.map (fun i =>
        if i.id == id then { i with status := TodoStatus.completed, completedAt := some 0 }
        else i), i.status ≠ TodoStatus.in_progress := by
      intro i hi hstat
      obtain ⟨j, hj, rfl⟩ := List.mem_map.mp hi
      by_cases hjid : (j.id == id) = true
      · simp [hjid] at hstat
      · simp only [hjid, Bool.false_eq_true, if_false] at hstat
        have hj2 := h2 j hj hstat
        rw [hcur] at hj2
        have : id = j.id := by injection hj2
        simp [this] at hjid
    obtain ⟨p1, p2⟩ := promoteFirstPending_of_none _ hno1
    simp only [TodoManager.completeTask, hfind]
    cases hp2 : (promoteFirstPending (m.items.map (fun i =>
        if i.id == id then { i with status := TodoStatus.completed, completedAt := some 0 }
        else i))).2 with
    | some np =>
      simp only [hp2]
      constructor
      · simpa [countInProgress] using p1
      · intro i hi hstat
        obtain ⟨q, hq, hid⟩ := p2 i hi hstat
        rw [hp2] at hq
        injection hq with hq
        subst hq
        simp [hid]
    | none =>
      simp only [hp2]
      constructor
      · have hnil : (m.items.map (fun i =>
            if i.id == id then { i with status := TodoStatus.completed, completedAt := some 0 }
            else i)).filter (fun i => i.status == TodoStatus.in_progress) = [] := by
          rw [List.filter_eq_nil_iff]
          intro i hi
          simpa using hno1 i hi
        have hlen0 : ((m.items.map (fun i =>
            if i.id == id then { i with status := TodoStatus.completed, completedAt := some 0 }
            else i)).filter (fun i => i.status == TodoStatus.in_progress)).length ≤ 1 := by
          rw [hnil]
          simp
        simpa [countInProgress] using hlen0
      · intro i hi hstat
        exact absurd hstat (hno1 i hi)

theorem todoInv_completeCurrentAndNext (m : TodoManager) (hInv : TodoInv m) :
    TodoInv (m.completeCurrentAndNext).1 := by
  obtain ⟨h1, h2⟩ := hInv
  cases hcur : m.currentTaskId with
  | none =>
    have hno : ∀ i ∈ m.items, i.status ≠ TodoStatus.in_progress := by
      intro i hi hstat
      have hthis := h2 i hi hstat
      rw [hcur] at hthis
      exact Option.noConfusion hthis
    obtain ⟨p1, p2⟩ := promoteFirstPending_of_none m.items hno
    simp only [TodoManager.completeCurrentAndNext, hcur]
    cases hp2 : (promoteFirstPending m.items).2 with
    | none =>
      simp only [hp2]
      exact ⟨h1, h2⟩
    | some p =>
      simp only [hp2]
      constructor
      · simpa [countInProgress] using p1
      · intro i hi hstat
        obtain ⟨q, hq, hid⟩ := p2 i hi hstat
        rw [hp2] at hq
        injection hq with hq
        subst hq
        simp [hid]
  | some id =>
    have hTask := todoInv_completeTask m id ⟨h1, h2⟩ hcur
    simp only [TodoManager.completeCurrentAndNext, hcur]
    cases hr : (m.completeTask id).2 with
    | none => simpa only [hr] using hTask
    | some cn =>
      obtain ⟨c, n⟩ := cn
      simpa only [hr] using hTask

theorem todoInv_applyTodoOp (m : TodoManager) (op : TodoOp) (hInv : TodoInv m) :
    TodoInv (applyTodoOp m op) := by
  cases op with
  | set items =>
    by_cases hempty : items.length = 0
    · simpa [applyTodoOp, todoToolExecute, hempty] using hInv
    · have hmap : ∀ t ∈ items.map (fun i =>
          ({ content := i.content, activeForm := i.activeForm } : SetTodoInput)),
          t.status = none := by
        intro t ht
        obtain ⟨u, _, rfl⟩ := List.mem_map.mp ht
        rfl
      have hset := todoInv_setAll m _ hmap
      simpa [applyTodoOp, todoToolExecute, hempty] using hset
  | complete =>
    have hcc := todoInv_completeCurrentAndNext m hInv
    simpa [applyTodoOp, todoToolExecute] using hcc

theorem todoInv_fresh : TodoInv freshTodoManager := by
  constructor
  · simp [countInProgress, freshTodoManager]
  · intro i hi
    simp [freshTodoManager] at hi

theorem todoInv_foldl (ops : List TodoOp) (m : TodoManager) (hInv : TodoInv m) :
    TodoInv (ops.foldl applyTodoOp m) := by
  induction ops generalizing m with
  | nil => simpa using hInv
  | cons op rest ih => exact ih _ (todoInv_applyTodoOp m op hInv)

/-- C3: after any sequence of todo-tool `set`/`complete` operations
applied to a fresh `TodoManager`, at most one item has status
`in_progress` (and since every prefix of a sequence is itself a
sequence, this holds after each operation). -/
theorem C3_at_most_one_in_progress (ops : List TodoOp) :
    countInProgress (runTodoOps ops) ≤ 1 :=
  (todoInv_foldl ops freshTodoManager todoInv_fresh).1

/-- C4: on a fresh manager, `set` with items A and B followed by one
`complete` returns completed item "A" (marked completed) and next item
"B" (promoted to `in_progress`), and the tool's reported progress is
total 2, completed 1, pending 0, inProgress 1. -/
theorem C4_set_then_complete_scenario :
    (todoToolExecute freshTodoManager "set"
        (some [{ content := "A" }, { content := "B" }])).1.completeCurrentAndNext.2.completed.map
          (fun i => (i.content, i.status)) = some ("A", TodoStatus.completed) ∧
    (todoToolExecute freshTodoManager "set"
        (some [{ content := "A" }, { content := "B" }])).1.completeCurrentAndNext.2.next.map
          (fun i => (i.content, i.status)) = some ("B", TodoStatus.in_progress) ∧
    (todoToolExecute (todoToolExecute freshTodoManager "set"
        (some [{ content := "A" }, { content := "B" }])).1 "complete" none).2.data.map
          (fun d => d.progress) = some (some ⟨2, 1, 0, 1⟩) ∧
    (todoToolExecute (todoToolExecute freshTodoManager "set"
        (some [{ content := "A" }, { content := "B" }])).1 "complete" none).1.getProgress
      = ⟨2, 1, 0, 1⟩ := by
  decide

/-- C5: the todo tool's `set` action with a missing or empty item list
returns a failed result (success `false` with an error message) and
leaves the manager unchanged. -/
theorem C5_set_requires_items (m : TodoManager) :
    todoToolExecute m "set" none =
      (m, { success := false,
            error := some "Items array is required for \"set\" action" }) ∧
    todoToolExecute m "set" (some []) =
      (m, { success := false,
            error := some "Items array is required for \"set\" action" }) :=
  ⟨rfl, rfl⟩

/-- A tool result: success flag, optional structured data (carried in
serialized form) and optional error message. -/
structure ToolResult where
  success : Bool
  data : Option String := none
  error : Option String := none
deriving DecidableEq

/-- Source `JSON.stringify` of a `ToolResult`: keys in declaration order,
absent (`undefined`) fields omitted. -/
def ToolResult.stringify (r : ToolResult) : String :=
  "\x7b\"success\":" ++ (if r.success then "true" else "false")
    ++ (match r.data with
        | some d => ",\"data\":" ++ d
        | none => "")
    ++ (match r.error with
        | some e => ",\"error\":\"" ++ e ++ "\""
        | none => "")
    ++ "\x7d"

/-- The context handed to every tool (tool contract, §6 of the spec). -/
structure ToolContext where
  remainingTokens : Nat := 0
  conversationId : Option String := none
  userId : Option String := none
deriving DecidableEq

/-- A registered tool: name, description, declared parameter schema
(kept in serialized form), and the executor function, which either
returns a result or throws — a thrown exception is modelled as
`Except.error` carrying the exception's message. -/
structure Tool where
  name : String
  description : String := ""
  parameters : String := ""
  execute : ToolInput → ToolContext → Except String ToolResult

/-- Tool schema sent to the LLM backend. -/
structure ToolSchema where
  name : String
  description : String
  input_schema : String
deriving DecidableEq

/-- Source `toolsToSchemas`. -/
def toolsToSchemas (tools : List Tool) : List ToolSchema :=
  tools.map (fun tool =>
    { name := tool.name, description := tool.description, input_schema := tool.parameters })

/-- Token usage reported by the backend for one call. -/
structure TokenUsage where
  inputTokens : Nat
  outputTokens : Nat
deriving DecidableEq

/-- Cache token usage reported by the backend for one call. -/
structure CacheTokenUsage where
  cacheCreationInputTokens : Nat
  cacheReadInputTokens : Nat
deriving DecidableEq

/-- One backend response. -/
structure LLMResponse where
  content : List ContentBlock
  stopReason : String
  usage : Option TokenUsage := none
  cacheUsage : Option CacheTokenUsage := none
deriving DecidableEq

/-- The LLM backend.  `chat` additionally receives the index of the
call (the loop's iteration counter), which models an arbitrary,
possibly stateful backend deterministically; the remaining arguments
are the system prompt, the managed messages and the tool schemas. -/
structure LLMProvider where
  chat : Nat → String → List Message → List ToolSchema → LLMResponse

/-- One entry of the tool-call log. -/
structure ToolCallLog where
  name : String
  input : ToolInput
  output : ToolResult
  durationMs : Nat
deriving DecidableEq

/-- The pending-question payload built from an ask-user `tool_use`. -/
structure PendingQuestion where
  question : String
  options : Option (List String) := none
deriving DecidableEq

/-- Minimal review state: the executor only reads the current review. -/
structure ReviewResult where
  passed : Bool
  summary : String := ""
deriving DecidableEq

/-- Minimal `ReviewManager` model. -/
structure ReviewManager where
  currentReview : Option ReviewResult := none
deriving DecidableEq

/-- Token totals reported in an `AgentResult`. -/
structure UsageTotals where
  totalInputTokens : Nat
  totalOutputTokens : Nat
  cacheCreationInputTokens : Option Nat := none
  cacheReadInputTokens : Option Nat := none
deriving DecidableEq

/-- The outcome of one run of the execution loop. -/
structure AgentResult where
  response : String
  history : List Message
  toolCalls : List ToolCallLog
  thinking : Option (List String) := none
  todos : Option (List TodoItem) := none
  review : Option ReviewResult := none
  pendingQuestion : Option PendingQuestion := none
  status : String
  usage : UsageTotals
deriving DecidableEq

/-- Source `ExecutorConfig` as declared in the source.  Note that it carries
no cancellation signal and no continuation predicate. -/
structure ExecutorConfig where
  systemPrompt : String
  tools : List Tool
  llm : LLMProvider
  maxIterations : Nat
  contextManager : ContextManager
  todoManager : TodoManager
  reviewManager : Option ReviewManager := none

/-- The reserved ask-user sentinel tool name. -/
def ASK_USER_TOOL_NAME : String := "__ask_user__"

/-- Source `extractText`: text blocks joined with newlines. -/
def extractText (content : List ContentBlock) : String :=
  String.intercalate "\n" (content.filterMap (fun b =>
    match b with
    | .text t => some t
    | _ => none))

/-- Source `extractThinking`. -/
def extractThinking (content : List ContentBlock) : List String :=
  content.filterMap (fun b =>
    match b with
    | .thinking t => some t
    | _ => none)

/-- Source `executeTool`: run the tool's handler, catching anything it throws
and converting it into a failed result carrying the thrown message.
`now` and `later` are the two `Date.now()` readings taken before and
after the handler; the measured duration is returned in both the
success and the failure case. -/
def executeTool (tool : Tool) (params : ToolInput) (context : ToolContext)
    (now later : Nat) : ToolResult × Nat :=
  match tool.execute params context with
  | .ok result => (result, later - now)
  | .error e => ({ success := false, error := some e }, later - now)

/-- The `tool_use` blocks of a response, in request order. -/
def toolUseBlocks (content : List ContentBlock) : List (String × String × ToolInput) :=
  content.filterMap (fun b =>
    match b with
    | .tool_use id name input => some (id, name, input)
    | _ => none)

/-- The per-batch tool loop inside `executeLoop`: walk the requested
`tool_use` blocks in order.  The ask-user sentinel short-circuits with
the pending question and the log accumulated so far (collected result
blocks are discarded); an unknown name appends an error `tool_result`
block without logging anything and continues; otherwise the tool is
dispatched via `executeTool` (`Date.now()` modelled as constant `0`),
the call is logged, and its result block appended. -/
def runToolUses (tools : List Tool) (context : ToolContext) :
    List (String × String × ToolInput) → List ContentBlock → List ToolCallLog →
    (PendingQuestion × List ToolCallLog) ⊕ (List ContentBlock × List ToolCallLog)
  | [], results, logs => .inr (results, logs)
  | (id, name, input) :: rest, results, logs =>
    if name = ASK_USER_TOOL_NAME then
      .inl ({ question := input.question, options := input.options }, logs)
    else
      match tools.find? (fun t => t.name == name) with
      | none =>
        runToolUses tools context rest
          (results ++ [ContentBlock.tool_result id
            (ToolResult.stringify { success := false, error := some ("Unknown tool: " ++ name) })
            true])
          logs
      | some tool =>
        runToolUses tools context rest
          (results ++ [ContentBlock.tool_result id
            (ToolResult.stringify (executeTool tool input context 0 0).1)
            (!(executeTool tool input context 0 0).1.success)])
          (logs ++ [{ name := name
                      input := input
                      output := (executeTool tool input context 0 0).1
                      durationMs := (executeTool tool input context 0 0).2 }])

/-- Usage counters threaded through the loop. -/
structure UsageCounters where
  totalInputTokens : Nat := 0
  totalOutputTokens : Nat := 0
  totalCacheCreationTokens : Nat := 0
  totalCacheReadTokens : Nat := 0
deriving DecidableEq

/-- Accumulate one response's usage into the counters. -/
def UsageCounters.add (u : UsageCounters) (response : LLMResponse) : UsageCounters :=
  { totalInputTokens := u.totalInputTokens +
      (match response.usage with | some v => v.inputTokens | none => 0),
    totalOutputTokens := u.totalOutputTokens +
      (match response.usage with | some v => v.outputTokens | none => 0),
    totalCacheCreationTokens := u.totalCacheCreationTokens +
      (match response.cacheUsage with | some v => v.cacheCreationInputTokens | none => 0),
    totalCacheReadTokens := u.totalCacheReadTokens +
      (match response.cacheUsage with | some v => v.cacheReadInputTokens | none => 0) }

/-- The usage summary placed into a result (`> 0` cache counters only). -/
def UsageCounters.toTotals (u : UsageCounters) : UsageTotals :=
  { totalInputTokens := u.totalInputTokens,
    totalOutputTokens := u.totalOutputTokens,
    cacheCreationInputTokens :=
      if u.totalCacheCreationTokens > 0 then some u.totalCacheCreationTokens else none,
    cacheReadInputTokens :=
      if u.totalCacheReadTokens > 0 then some u.totalCacheReadTokens else none }

/-- One pass of the `for` loop of `executeLoop`, by recursion on the
number of remaining iterations (`maxIterations - iteration`).  When the
fuel is exhausted the source throws the max-iterations error. -/
def loopIter (cfg : ExecutorConfig) (context : ToolContext) :
    Nat → Nat → ContextManager → List Message → List ToolCallLog → List String →
    UsageCounters → Except String AgentResult
  | 0, _, _, _, _, _, _ =>
    .error ("Max iterations (" ++ toString cfg.maxIterations ++ ") reached")
  | fuel + 1, iteration, cm, messages, logs, thinking, usage =>
    match cm.manageContext messages with
    | (_, .error e) => .error e
    | (cm', .ok managed) =>
      let response := cfg.llm.chat iteration cfg.systemPrompt managed (toolsToSchemas cfg.tools)
      let usage' := usage.add response
      let thinking' := thinking ++ extractThinking response.content
      let messages' := messages ++ [⟨Role.assistant, MessageContent.blocks response.content⟩]
      if response.stopReason ≠ "tool_use" then
        .ok { response := extractText response.content,
              history := messages',
              toolCalls := logs,
              thinking := if thinking'.length > 0 then some thinking' else none,
              todos := if cfg.todoManager.getAll.length > 0 then
                  some cfg.todoManager.getAll else none,
              review := cfg.reviewManager.bind (fun rm => rm.currentReview),
              status := "complete",
              usage := usage'.toTotals }
      else
        match runToolUses cfg.tools context (toolUseBlocks response.content) [] logs with
        | .inl (pq, logs') =>
          .ok { response := "",
                history := messages',
                toolCalls := logs',
                thinking := if thinking'.length > 0 then some thinking' else none,
                todos := if cfg.todoManager.getAll.length > 0 then
                    some cfg.todoManager.getAll else none,
                pendingQuestion := some pq,
                status := "needs_input",
                usage := usage'.toTotals }
        | .inr (results, logs') =>
          loopIter cfg context fuel (iteration + 1) cm'
            (messages' ++ [⟨Role.user, MessageContent.blocks results⟩]) logs' thinking' usage'

/-- Source `executeLoop`: run up to `maxIterations` iterations starting from
the initial messages with empty logs and zero usage counters. -/
def executeLoop (cfg : ExecutorConfig) (initialMessages : List Message)
    (context : ToolContext) : Except String AgentResult :=
  loopIter cfg context cfg.maxIterations 0 cfg.contextManager initialMessages [] [] {}

/-- C6: tool execution never raises — the dispatcher always returns the
measured duration, and when the tool's handler throws, it returns a
failed result (success `false`) whose error field carries the thrown
message, with the duration still recorded. -/
theorem C6_executeTool_catches (tool : Tool) (params : ToolInput)
    (context : ToolContext) (now later : Nat) (msg : String) :
    (executeTool tool params context now later).2 = later - now ∧
      (tool.execute params context = .error msg →
        executeTool tool params context now later =
          ({ success := false, data := none, error := some msg }, later - now)) := by
  constructor
  · cases h : tool.execute params context <;> simp [executeTool, h]
  · intro h
    simp [executeTool, h]

/-- A tool whose handler always throws, for the C6 witness. -/
def throwingTool : Tool :=
  { name := "boom_tool", execute := fun _ _ => .error "boom" }

theorem C6_executeTool_catches_witness :
    throwingTool.execute {} {} = .error "boom" ∧
      executeTool throwingTool {} {} 3 8 =
        ({ success := false, data := none, error := some "boom" }, 5) :=
  ⟨rfl, (C6_executeTool_catches throwingTool {} {} 3 8 "boom").2 rfl⟩

/-- Character-list version of `String.startsWith`. -/
def charsStartWith : List Char → List Char → Bool
  | [], _ => true
  | _ :: _, [] => false
  | p :: ps, c :: cs => p == c && charsStartWith ps cs

/-- Does the second character list contain the first one as a
contiguous run? -/
def charsContain (pat : List Char) : List Char → Bool
  | [] => charsStartWith pat []
  | c :: cs => charsStartWith pat (c :: cs) || charsContain pat cs

/-- Decidable substring test, used to state the "content containing …"
part of claims. -/
def containsSubstring (s pat : String) : Bool :=
  charsContain pat.data s.data

theorem manageContext_ok_of_strategy (cm : ContextManager) (messages : List Message)
    (h : cm.strategy ≠ .error) :
    ∃ out, cm.manageContext messages =
      ({ cm with currentTokens := estimateTotalTokens messages }, Except.ok out) := by
  by_cases hW : estimateTotalTokens messages ≤ cm.maxTokens
  · exact ⟨messages, by
      simp [ContextManager.manageContext, ContextManager.isWithinLimits, hW]⟩
  · cases hs : cm.strategy with
    | truncate_old =>
      exact ⟨truncateOldMessages messages cm.maxTokens, by
        simp [ContextManager.manageContext, ContextManager.isWithinLimits, hW, hs]⟩
    | summarize =>
      exact ⟨truncateOldMessages messages cm.maxTokens, by
        simp [ContextManager.manageContext, ContextManager.isWithinLimits, hW, hs]⟩
    | error => exact absurd hs h

theorem toolUseBlocks_mem (content : List ContentBlock) (b : String × String × ToolInput)
    (hb : b ∈ toolUseBlocks content) :
    ContentBlock.tool_use b.1 b.2.1 b.2.2 ∈ content := by
  simp only [toolUseBlocks] at hb
  obtain ⟨blk, hblk, hmap⟩ := List.mem_filterMap.mp hb
  cases blk with
  | text t => simp at hmap
  | thinking t => simp at hmap
  | tool_result a c e => simp at hmap
  | tool_use id name input =>
    have hb2 : (id, name, input) = b := by simpa using hmap
    subst hb2
    exact hblk

theorem runToolUses_no_ask (tools : List Tool) (context : ToolContext)
    (blocks : List (String × String × ToolInput))
    (h : ∀ b ∈ blocks, b.2.1 ≠ ASK_USER_TOOL_NAME) :
    ∀ results logs, ∃ results' logs',
      runToolUses tools context blocks results logs = .inr (results', logs') := by
  induction blocks with
  | nil => exact fun results logs => ⟨results, logs, rfl⟩
  | cons b rest ih =>
    obtain ⟨id, name, input⟩ := b
    intro results logs
    have hname : name ≠ ASK_USER_TOOL_NAME := h _ (List.mem_cons_self _ _)
    have hrest : ∀ b ∈ rest, b.2.1 ≠ ASK_USER_TOOL_NAME :=
      fun b hb => h b (List.mem_cons_of_mem _ hb)
    cases hfind : tools.find? (fun t => t.name == name) with
    | none =>
      obtain ⟨r', l', hr⟩ := ih hrest
        (results ++ [ContentBlock.tool_result id
          (ToolResult.stringify { success := false, error := some ("Unknown tool: " ++ name) })
          true])
        logs
      exact ⟨r', l', by
        simp only [runToolUses, if_neg hname, hfind]
        exact hr⟩
    | some tool =>
      obtain ⟨r', l', hr⟩ := ih hrest
        (results ++ [ContentBlock.tool_result id
          (ToolResult.stringify (executeTool tool input context 0 0).1)
          (!(executeTool tool input context 0 0).1.success)])
        (logs ++ [{ name := name
                    input := input
                    output := (executeTool tool input context 0 0).1
                    durationMs := (executeTool tool input context 0 0).2 }])
      exact ⟨r', l', by
        simp only [runToolUses, if_neg hname, hfind]
        exact hr⟩

/-- Unfolding lemma: one iteration of the loop that executes its whole
tool batch and continues. -/
theorem loopIter_step_continue {cfg : ExecutorConfig} {context : ToolContext}
    {fuel iteration : Nat} {cm cm' : ContextManager} {messages managed : List Message}
    {logs logs' : List ToolCallLog} {thinking : List String} {usage : UsageCounters}
    {results : List ContentBlock}
    (hmc : cm.manageContext messages = (cm', .ok managed))
    (hstop : (cfg.llm.chat iteration cfg.systemPrompt managed
      (toolsToSchemas cfg.tools)).stopReason = "tool_use")
    (hrun : runToolUses cfg.tools context (toolUseBlocks (cfg.llm.chat iteration
        cfg.systemPrompt managed (toolsToSchemas cfg.tools)).content) [] logs =
      .inr (results, logs')) :
    loopIter cfg context (fuel + 1) iteration cm messages logs thinking usage =
      loopIter cfg context fuel (iteration + 1) cm'
        (messages ++ [⟨Role.assistant, MessageContent.blocks (cfg.llm.chat iteration
            cfg.systemPrompt managed (toolsToSchemas cfg.tools)).content⟩]
          ++ [⟨Role.user, MessageContent.blocks results⟩])
        logs'
        (thinking ++ extractThinking (cfg.llm.chat iteration cfg.systemPrompt managed
          (toolsToSchemas cfg.tools)).content)
        (usage.add (cfg.llm.chat iteration cfg.systemPrompt managed
          (toolsToSchemas cfg.tools))) := by
  simp only [loopIter, hmc]
  rw [if_neg (show ¬ ((cfg.llm.chat iteration cfg.systemPrompt managed
    (toolsToSchemas cfg.tools)).stopReason ≠ "tool_use") from fun hne => hne hstop)]
  rw [hrun]

/-- Unfolding lemma: one iteration of the loop whose response ends the
turn, producing the `complete` result. -/
theorem loopIter_step_complete {cfg : ExecutorConfig} {context : ToolContext}
    {fuel iteration : Nat} {cm cm' : ContextManager} {messages managed : List Message}
    {logs : List ToolCallLog} {thinking : List String} {usage : UsageCounters}
    (hmc : cm.manageContext messages = (cm', .ok managed))
    (hstop : (cfg.llm.chat iteration cfg.systemPrompt managed
      (toolsToSchemas cfg.tools)).stopReason ≠ "tool_use") :
    loopIter cfg context (fuel + 1) iteration cm messages logs thinking usage =
      .ok { response := extractText (cfg.llm.chat iteration cfg.systemPrompt managed
              (toolsToSchemas cfg.tools)).content
            history := messages ++ [⟨Role.assistant, MessageContent.blocks (cfg.llm.chat
              iteration cfg.systemPrompt managed (toolsToSchemas cfg.tools)).content⟩]
            toolCalls := logs
            thinking := if (thinking ++ extractThinking (cfg.llm.chat iteration
                cfg.systemPrompt managed (toolsToSchemas cfg.tools)).content).length > 0 then
                some (thinking ++ extractThinking (cfg.llm.chat iteration cfg.systemPrompt
                  managed (toolsToSchemas cfg.tools)).content)
              else none
            todos := if cfg.todoManager.getAll.length > 0 then some cfg.todoManager.getAll
              else none
            review := cfg.reviewManager.bind (fun rm => rm.currentReview)
            status := "complete"
            usage := (usage.add (cfg.llm.chat iteration cfg.systemPrompt managed
              (toolsToSchemas cfg.tools))).toTotals } := by
  simp only [loopIter, hmc]
  rw [if_pos hstop]

/-- Unfolding lemma: one iteration of the loop whose tool batch reaches
the ask-user sentinel, producing the `needs_input` result. -/
theorem loopIter_step_needs_input {cfg : ExecutorConfig} {context : ToolContext}
    {fuel iteration : Nat} {cm cm' : ContextManager} {messages managed : List Message}
    {logs logs' : List ToolCallLog} {thinking : List String} {usage : UsageCounters}
    {pq : PendingQuestion}
    (hmc : cm.manageContext messages = (cm', .ok managed))
    (hstop : (cfg.llm.chat iteration cfg.systemPrompt managed
      (toolsToSchemas cfg.tools)).stopReason = "tool_use")
    (hrun : runToolUses cfg.tools context (toolUseBlocks (cfg.llm.chat iteration
        cfg.systemPrompt managed (toolsToSchemas cfg.tools)).content) [] logs =
      .inl (pq, logs')) :
    loopIter cfg context (fuel + 1) iteration cm messages logs thinking usage =
      .ok { response := ""
            history := messages ++ [⟨Role.assistant, MessageContent.blocks (cfg.llm.chat
              iteration cfg.systemPrompt managed (toolsToSchemas cfg.tools)).content⟩]
            toolCalls := logs'
            thinking := if (thinking ++ extractThinking (cfg.llm.chat iteration
                cfg.systemPrompt managed (toolsToSchemas cfg.tools)).content).length > 0 then
                some (thinking ++ extractThinking (cfg.llm.chat iteration cfg.systemPrompt
                  managed (toolsToSchemas cfg.tools)).content)
              else none
            todos := if cfg.todoManager.getAll.length > 0 then some cfg.todoManager.getAll
              else none
            pendingQuestion := some pq
            status := "needs_input"
            usage := (usage.add (cfg.llm.chat iteration cfg.systemPrompt managed
              (toolsToSchemas cfg.tools))).toTotals } := by
  simp only [loopIter, hmc]
  rw [if_neg (show ¬ ((cfg.llm.chat iteration cfg.systemPrompt managed
    (toolsToSchemas cfg.tools)).stopReason ≠ "tool_use") from fun hne => hne hstop)]
  rw [hrun]

/-- Backend used by the unknown-tool scenario: the first call requests
the unregistered tool "foo", every later call ends the turn. -/
def c7llm : LLMProvider :=
  { chat := fun iteration _ _ _ =>
      if iteration = 0 then
        { content := [ContentBlock.tool_use "id1" "foo" {}], stopReason := "tool_use" }
      else
        { content := [ContentBlock.text "done"], stopReason := "end" } }

/-- Executor configuration for the unknown-tool scenario, over an
arbitrary registered tool set. -/
def c7cfg (tools : List Tool) : ExecutorConfig :=
  { systemPrompt := "sys", tools := tools, llm := c7llm, maxIterations := 2,
    contextManager := { maxTokens := 1000000, strategy := .truncate_old, currentTokens := 0 },
    todoManager := freshTodoManager }

def c7init : List Message := [⟨Role.user, MessageContent.str "hi"⟩]

/-- The serialized failed result produced for the unknown tool. -/
def c7errContent : String :=
  ToolResult.stringify { success := false, error := some "Unknown tool: foo" }

/-- The full result of the unknown-tool scenario run. -/
def c7result : AgentResult :=
  { response := "done"
    history := [⟨Role.user, MessageContent.str "hi"⟩,
      ⟨Role.assistant, MessageContent.blocks [ContentBlock.tool_use "id1" "foo" {}]⟩,
      ⟨Role.user, MessageContent.blocks [ContentBlock.tool_result "id1" c7errContent true]⟩,
      ⟨Role.assistant, MessageContent.blocks [ContentBlock.text "done"]⟩]
    toolCalls := []
    status := "complete"
    usage := { totalInputTokens := 0, totalOutputTokens := 0 } }

/-- C7: when the model requests a tool whose name matches no registered
tool, the loop produces a `tool_result` block with `is_error = true`
whose content contains "Unknown tool: foo", raises no exception
(the run returns `.ok`), and continues to the next iteration instead of
terminating (here finishing normally with status "complete" on the
following response). -/
theorem C7_unknown_tool (tools : List Tool)
    (h : tools.find? (fun t => t.name == "foo") = none) :
    executeLoop (c7cfg tools) c7init {} = .ok c7result ∧
      c7result.history.get? 2 = some ⟨Role.user, MessageContent.blocks
        [ContentBlock.tool_result "id1" c7errContent true]⟩ ∧
      containsSubstring c7errContent "Unknown tool: foo" = true := by
  refine ⟨?_, by decide, by decide⟩
  have hne : ("foo" : String) ≠ ASK_USER_TOOL_NAME := by decide
  have hrun1 : runToolUses tools ({} : ToolContext) [("id1", "foo", ({} : ToolInput))] [] [] =
      .inr ([ContentBlock.tool_result "id1" c7errContent true], []) := by
    simp only [runToolUses, if_neg hne, h]
    rfl
  show loopIter (c7cfg tools) {} (1 + 1) 0
    (ContextManager.mk 1000000 .truncate_old 0) c7init [] [] {} = .ok c7result
  have hmc1 : (ContextManager.mk 1000000 .truncate_old 0).manageContext c7init =
      (ContextManager.mk 1000000 .truncate_old (estimateTotalTokens c7init),
        .ok c7init) := rfl
  have hstop1 : ((c7cfg tools).llm.chat 0 (c7cfg tools).systemPrompt c7init
      (toolsToSchemas (c7cfg tools).tools)).stopReason = "tool_use" := rfl
  have hrun1' : runToolUses (c7cfg tools).tools ({} : ToolContext)
      (toolUseBlocks ((c7cfg tools).llm.chat 0 (c7cfg tools).systemPrompt c7init
        (toolsToSchemas (c7cfg tools).tools)).content) [] [] =
      .inr ([ContentBlock.tool_result "id1" c7errContent true], []) := hrun1
  rw [loopIter_step_continue hmc1 hstop1 hrun1']
  rfl

theorem C7_unknown_tool_witness :
    ([].find? (fun t => t.name == "foo") = (none : Option Tool)) ∧
      (executeLoop (c7cfg []) c7init {} = .ok c7result ∧
        c7result.history.get? 2 = some ⟨Role.user, MessageContent.blocks
          [ContentBlock.tool_result "id1" c7errContent true]⟩ ∧
        containsSubstring c7errContent "Unknown tool: foo" = true) :=
  ⟨rfl, C7_unknown_tool [] rfl⟩

/-- C8 (amended): for every configuration whose context strategy is not
`error`, and every backend that always returns stop reason "tool_use"
and never requests the reserved ask-user tool, `executeLoop` runs all
`maxIterations` iterations and then throws the max-iterations error —
it neither returns early nor loops forever (the loop is structural
recursion on the remaining iteration count). -/
theorem C8_max_iterations (cfg : ExecutorConfig) (initialMessages : List Message)
    (context : ToolContext)
    (hstrat : cfg.contextManager.strategy ≠ .error)
    (hstop : ∀ i sys msgs sch, (cfg.llm.chat i sys msgs sch).stopReason = "tool_use")
    (hask : ∀ i sys msgs sch id input,
      ContentBlock.tool_use id ASK_USER_TOOL_NAME input ∉ (cfg.llm.chat i sys msgs sch).content) :
    executeLoop cfg initialMessages context =
      .error ("Max iterations (" ++ toString cfg.maxIterations ++ ") reached") := by
  suffices hgen : ∀ fuel iteration cm messages logs thinking usage,
      cm.strategy = cfg.contextManager.strategy →
      loopIter cfg context fuel iteration cm messages logs thinking usage =
        .error ("Max iterations (" ++ toString cfg.maxIterations ++ ") reached") from
    hgen cfg.maxIterations 0 cfg.contextManager initialMessages [] [] {} rfl
  intro fuel
  induction fuel with
  | zero => exact fun iteration cm messages logs thinking usage hcm => rfl
  | succ fuel ih =>
    intro iteration cm messages logs thinking usage hcm
    have hcm' : cm.strategy ≠ .error := by
      rw [hcm]
      exact hstrat
    obtain ⟨out, hmc⟩ := manageContext_ok_of_strategy cm messages hcm'
    have hblocks : ∀ b ∈ toolUseBlocks (cfg.llm.chat iteration cfg.systemPrompt out
        (toolsToSchemas cfg.tools)).content, b.2.1 ≠ ASK_USER_TOOL_NAME := by
      intro b hb heq
      have hmem := toolUseBlocks_mem _ b hb
      rw [heq] at hmem
      exact hask iteration cfg.systemPrompt out (toolsToSchemas cfg.tools) b.1 b.2.2 hmem
    obtain ⟨results', logs', hrun⟩ := runToolUses_no_ask cfg.tools context _ hblocks [] logs
    rw [loopIter_step_continue hmc (hstop iteration cfg.systemPrompt out
      (toolsToSchemas cfg.tools)) hrun]
    exact ih (iteration + 1) _ _ _ _ _ (by simpa using hcm)

/-- Backend that always answers with a bare tool-use stop reason and no
content blocks at all, for the C8 witness. -/
def c8wLlm : LLMProvider :=
  { chat := fun _ _ _ _ => { content := [], stopReason := "tool_use" } }

def c8wCfg : ExecutorConfig :=
  { systemPrompt := "sys", tools := [], llm := c8wLlm, maxIterations := 2,
    contextManager := {}, todoManager := freshTodoManager }

theorem C8_max_iterations_witness :
    c8wCfg.contextManager.strategy ≠ .error ∧
      executeLoop c8wCfg [] {} = .error "Max iterations (2) reached" :=
  ⟨by decide, C8_max_iterations c8wCfg [] {} (by decide)
    (fun _ _ _ _ => rfl) (fun _ _ _ _ _ _ => List.not_mem_nil _)⟩

/-- Backend that always returns stop reason "tool_use" but requests the
reserved ask-user tool, for the C8 counterexample. -/
def c8ceLlm : LLMProvider :=
  { chat := fun _ _ _ _ =>
      { content := [ContentBlock.tool_use "q1" "__ask_user__"
          { question := "Which?" }],
        stopReason := "tool_use" } }

def c8ceCfg : ExecutorConfig :=
  { systemPrompt := "sys", tools := [], llm := c8ceLlm, maxIterations := 1,
    contextManager := {}, todoManager := freshTodoManager }

/-- C8 counterexample: a backend that always returns stop reason
"tool_use" (requesting the reserved ask-user tool) makes the loop
return `.ok` with status "needs_input" after its first iteration — it
does not terminate fatally with the max-iterations error after
`maxIterations = 1` iterations as the claim states. -/
theorem C8_max_iterations_counterexample :
    (executeLoop c8ceCfg [] {}).map (fun r => r.status) = Except.ok "needs_input" := rfl

/-- C9 (code behaviour): any `.ok` outcome of `executeLoop` has status
"complete" or "needs_input" — the loop checks no cancellation signal
and no continuation predicate at the top of its iterations (its
`ExecutorConfig` does not even carry them) and never produces an
`interrupted` outcome. -/
theorem C9_executeLoop_never_interrupted (cfg : ExecutorConfig)
    (initialMessages : List Message) (context : ToolContext) (r : AgentResult)
    (h : executeLoop cfg initialMessages context = .ok r) :
    r.status = "complete" ∨ r.status = "needs_input" := by
  suffices hgen : ∀ fuel iteration cm messages logs thinking usage r,
      loopIter cfg context fuel iteration cm messages logs thinking usage = .ok r →
      r.status = "complete" ∨ r.status = "needs_input" from
    hgen cfg.maxIterations 0 cfg.contextManager initialMessages [] [] {} r h
  intro fuel
  induction fuel with
  | zero =>
    intro iteration cm messages logs thinking usage r h
    simp [loopIter] at h
  | succ fuel ih =>
    intro iteration cm messages logs thinking usage r h
    simp only [loopIter] at h
    split at h
    · simp at h
    · split at h
      · simp only [Except.ok.injEq] at h
        subst h
        left
        rfl
      · split at h
        · simp only [Except.ok.injEq] at h
          subst h
          right
          rfl
        · exact ih _ _ _ _ _ _ r h

/-- Backend ending immediately, for the C9 witness. -/
def c9Llm : LLMProvider :=
  { chat := fun _ _ _ _ => { content := [ContentBlock.text "hi there"], stopReason := "end" } }

def c9Cfg : ExecutorConfig :=
  { systemPrompt := "sys", tools := [], llm := c9Llm, maxIterations := 3,
    contextManager := {}, todoManager := freshTodoManager }

def c9Result : AgentResult :=
  { response := "hi there"
    history := [⟨Role.assistant, MessageContent.blocks [ContentBlock.text "hi there"]⟩]
    toolCalls := []
    status := "complete"
    usage := { totalInputTokens := 0, totalOutputTokens := 0 } }

theorem C9_executeLoop_never_interrupted_witness :
    executeLoop c9Cfg [] {} = .ok c9Result ∧
      (c9Result.status = "complete" ∨ c9Result.status = "needs_input") :=
  ⟨rfl, C9_executeLoop_never_interrupted c9Cfg [] {} c9Result rfl⟩

/-- Backend for the ask-user short-circuit scenario: one response whose
tool batch is a registered tool, then the ask-user sentinel, then the
registered tool again. -/
def c10Llm (T : Tool) (inp1 q inp3 : ToolInput) : LLMProvider :=
  { chat := fun _ _ _ _ =>
      { content := [ContentBlock.tool_use "id1" T.name inp1,
                    ContentBlock.tool_use "id2" ASK_USER_TOOL_NAME q,
                    ContentBlock.tool_use "id3" T.name inp3],
        stopReason := "tool_use" } }

def c10Cfg (T : Tool) (inp1 q inp3 : ToolInput) (n B : Nat) : ExecutorConfig :=
  { systemPrompt := "sys", tools := [T], llm := c10Llm T inp1 q inp3,
    maxIterations := n + 1,
    contextManager := { maxTokens := B, strategy := .truncate_old, currentTokens := 0 },
    todoManager := freshTodoManager }

/-- C10: when a tool batch names the reserved ask-user sentinel, the
loop short-circuits with status "needs_input" and a pending question
built from that block's input; the tool before the sentinel was
executed and logged (`toolCalls` holds exactly its entry), the tool
after the sentinel was not, and no `tool_result` message is appended —
the returned history ends with the assistant message whose `tool_use`
blocks are left unanswered. -/
theorem C10_ask_user_short_circuit (T : Tool) (inp1 q inp3 : ToolInput)
    (init : List Message) (context : ToolContext) (n B : Nat)
    (hT : T.name ≠ ASK_USER_TOOL_NAME) :
    executeLoop (c10Cfg T inp1 q inp3 n B) init context =
      .ok { response := ""
            history := init ++ [⟨Role.assistant, MessageContent.blocks
              [ContentBlock.tool_use "id1" T.name inp1,
               ContentBlock.tool_use "id2" ASK_USER_TOOL_NAME q,
               ContentBlock.tool_use "id3" T.name inp3]⟩]
            toolCalls := [{ name := T.name
                            input := inp1
                            output := (executeTool T inp1 context 0 0).1
                            durationMs := (executeTool T inp1 context 0 0).2 }]
            pendingQuestion := some { question := q.question, options := q.options }
            status := "needs_input"
            usage := { totalInputTokens := 0, totalOutputTokens := 0 } } := by
  obtain ⟨out, hmc⟩ := manageContext_ok_of_strategy
    (ContextManager.mk B .truncate_old 0) init (by simp)
  have hstop : ((c10Cfg T inp1 q inp3 n B).llm.chat 0 (c10Cfg T inp1 q inp3 n B).systemPrompt
      out (toolsToSchemas (c10Cfg T inp1 q inp3 n B).tools)).stopReason = "tool_use" := rfl
  have hrun : runToolUses (c10Cfg T inp1 q inp3 n B).tools context
      (toolUseBlocks ((c10Cfg T inp1 q inp3 n B).llm.chat 0
        (c10Cfg T inp1 q inp3 n B).systemPrompt out
        (toolsToSchemas (c10Cfg T inp1 q inp3 n B).tools)).content) [] [] =
      .inl ({ question := q.question, options := q.options },
        [{ name := T.name
           input := inp1
           output := (executeTool T inp1 context 0 0).1
           durationMs := (executeTool T inp1 context 0 0).2 }]) := by
    show runToolUses [T] context
      [("id1", T.name, inp1), ("id2", ASK_USER_TOOL_NAME, q), ("id3", T.name, inp3)] [] [] = _
    simp only [runToolUses, if_neg hT, List.find?, beq_self_eq_true, List.nil_append]
    rfl
  show loopIter (c10Cfg T inp1 q inp3 n B) context (n + 1) 0
    (ContextManager.mk B .truncate_old 0) init [] [] {} = _
  rw [loopIter_step_needs_input hmc hstop hrun]
  rfl

/-- A registered tool for the C10 witness. -/
def c10T : Tool :=
  { name := "t1", execute := fun _ _ => .ok { success := true } }

def c10Q : ToolInput := { question := "Which one?", options := some ["a", "b"] }

theorem C10_ask_user_short_circuit_witness :
    c10T.name ≠ ASK_USER_TOOL_NAME ∧
      executeLoop (c10Cfg c10T {} c10Q {} 0 50) [] {} =
        .ok { response := ""
              history := [⟨Role.assistant, MessageContent.blocks
                [ContentBlock.tool_use "id1" c10T.name {},
                 ContentBlock.tool_use "id2" ASK_USER_TOOL_NAME c10Q,
                 ContentBlock.tool_use "id3" c10T.name {}]⟩]
              toolCalls := [{ name := c10T.name
                              input := {}
                              output := (executeTool c10T {} {} 0 0).1
                              durationMs := (executeTool c10T {} {} 0 0).2 }]
              pendingQuestion := some { question := c10Q.question, options := c10Q.options }
              status := "needs_input"
              usage := { totalInputTokens := 0, totalOutputTokens := 0 } } :=
  ⟨by decide, C10_ask_user_short_circuit c10T {} c10Q {} [] {} 0 50 (by decide)⟩

end HiveAgent
